import Mathlib

/-!
Verification of the invoice-extractor (src/app.py) field-extraction engine,
classifier, validator and batch orchestrator, as a shallow embedding.

Strings are modelled as `List Char` (Python `str` is a sequence of code
points, matching `List Char` length and indexing semantics).  Each Python
regex used by the source is hand-compiled to an explicit scanner that
reproduces `re.search` semantics (leftmost match, greedy quantifiers with
backtracking) for the specific pattern.  Python `datetime.strptime` is
modelled with the directive regexes of CPython `_strptime` (`%Y` four
digits, `%m` as `1[0-2]|0[1-9]|[1-9]`, `%d` as `3[01]|[12]\d|0[1-9]|[1-9]`),
full-consumption check, and Gregorian calendar validation.
-/

/-- Python strings modelled as lists of code points. -/
abbrev Str := List Char

/-- Coerce a Lean string literal to the model type. -/
def str (s : String) : Str := s.data

/-- Python `\s` / `str.strip()` whitespace for `str` patterns: ASCII
whitespace plus the common Unicode spaces (NBSP, ideographic space).
Exotic Unicode whitespace code points are omitted; no input of the
development contains them. -/
def isPyWs (c : Char) : Bool :=
  c = ' ' || c = '\t' || c = '\n' || c = '\r' ||
  c.toNat = 11 || c.toNat = 12 || c.toNat = 0xA0 || c.toNat = 0x3000

/-- Character class `[:：\s]` used as the label separator in app.py. -/
def isSepC (c : Char) : Bool := c = ':' || c = '：' || isPyWs c

/-- ASCII digit, the `\d` of the source's patterns. -/
def isDigitC (c : Char) : Bool := '0' ≤ c && c ≤ '9'

/-- The class `[A-Z0-9]` under `re.IGNORECASE` (invoice-number pattern). -/
def isAlnumC (c : Char) : Bool :=
  isDigitC c || ('A' ≤ c && c ≤ 'Z') || ('a' ≤ c && c ≤ 'z')

/-- Character class `[¥￥\s]` (currency prefix in the total patterns). -/
def isCurrC (c : Char) : Bool := c = '¥' || c = '￥' || isPyWs c

/-- Character class `[\d.,]` (captured span of the labeled total patterns). -/
def isAmtC (c : Char) : Bool := isDigitC c || c = '.' || c = ','

/-- Python `str.strip()`: remove leading and trailing whitespace. -/
def pyStrip (l : Str) : Str :=
  ((l.dropWhile isPyWs).reverse.dropWhile isPyWs).reverse

/-- `re.search` for a pattern compiled to `f`: try every start position
left to right, return the first successful match. -/
def searchWith (f : Str → Option α) : Str → Option α
  | [] => f []
  | c :: rest =>
    match f (c :: rest) with
    | some v => some v
    | none => searchWith f rest

/-- Matcher for a pattern beginning with a literal label: the label must
be a prefix at the current position, then `g` matches the remainder. -/
def matchAfterLabel (label : Str) (g : Str → Option α) (cs : Str) : Option α :=
  if label.isPrefixOf cs then g (cs.drop label.length) else none

/-- `re.search` for a label-anchored pattern. -/
def searchLabel (label : Str) (g : Str → Option α) (cs : Str) : Option α :=
  searchWith (matchAfterLabel label g) cs

/-- Tail of the invoice-number pattern `发票号码[:：\s]*([A-Z0-9]+)`
(IGNORECASE): greedily skip separators, then capture one-or-more
alphanumerics.  The separator class and `[A-Z0-9]` are disjoint, so the
greedy skip is exact (backtracking into the star cannot create a match). -/
def invoiceTail (cs : Str) : Option Str :=
  let v := (cs.dropWhile isSepC).takeWhile isAlnumC
  if v = [] then none else some v

/-- app.py lines 149-153: the invoice-number extractor.  Empty string when
the pattern does not match anywhere. -/
def extractInvoiceNo (cs : Str) : Str :=
  match searchLabel (str "发票号码") invoiceTail cs with
  | some v => v
  | none => []

/-- Numeric value of an ASCII digit. -/
def dval (c : Char) : Nat := c.toNat - 48

/-- `int()` of a digit string. -/
def natOf (l : Str) : Nat := l.foldl (fun n c => n * 10 + dval c) 0

/-- Candidates of `\d{1,2}` in greedy/backtracking order: the two-digit
take first, then the one-digit take. -/
def d12Cands : Str → List (Str × Str)
  | a :: b :: r =>
    if isDigitC a then
      if isDigitC b then [([a, b], r), ([a], b :: r)] else [([a], b :: r)]
    else []
  | [a] => if isDigitC a then [([a], [])] else []
  | [] => []

/-- The optional separator (a dash or slash) in the date-shape pattern.
The following atom is `\d{1,2}` and dash, slash are not digits, so the
optional quantifier is deterministic. -/
def optDash : Str → (Str × Str)
  | c :: r => if c = '-' || c = '/' then ([c], r) else ([], c :: r)
  | [] => ([], [])

/-- The captured group of the labeled date shape (four digits, optional
dash-or-slash, one or two digits, optional dash-or-slash, one or two
digits) at the current position, with the regex's greedy/backtracking
order on the two `\d{1,2}` atoms. -/
def dateShape (cs : Str) : Option Str :=
  match cs with
  | a :: b :: c :: d :: rest =>
    if isDigitC a && isDigitC b && isDigitC c && isDigitC d then
      let (s1, r1) := optDash rest
      (d12Cands r1).findSome? (fun t1 =>
        let (s2, r3) := optDash t1.2
        match (d12Cands r3).head? with
        | some t2 => some ([a, b, c, d] ++ s1 ++ t1.1 ++ s2 ++ t2.1)
        | none => none)
    else none
  | _ => none

/-- CPython `_strptime` regex for `%m`: `1[0-2]|0[1-9]|[1-9]`, candidates
in alternation order. -/
def monthCands : Str → List (Nat × Str)
  | '1' :: b :: r =>
    (if '0' ≤ b && b ≤ '2' then [(10 + dval b, r)] else []) ++ [(1, b :: r)]
  | '0' :: b :: r => if '1' ≤ b && b ≤ '9' then [(dval b, r)] else []
  | c :: r => if '1' ≤ c && c ≤ '9' then [(dval c, r)] else []
  | [] => []

/-- CPython `_strptime` regex for `%d`: `3[01]|[12]\d|0[1-9]|[1-9]`,
candidates in alternation order. -/
def dayCands : Str → List (Nat × Str)
  | '3' :: b :: r =>
    (if b = '0' || b = '1' then [(30 + dval b, r)] else []) ++ [(3, b :: r)]
  | '0' :: b :: r => if '1' ≤ b && b ≤ '9' then [(dval b, r)] else []
  | c :: b :: r =>
    if c = '1' || c = '2' then
      (if isDigitC b then [(10 * dval c + dval b, r)] else []) ++ [(dval c, b :: r)]
    else if '4' ≤ c && c ≤ '9' then [(dval c, b :: r)] else []
  | [c] => if '1' ≤ c && c ≤ '9' then [(dval c, [])] else []
  | [] => []

/-- Regex phase of `strptime(s, "%Y-%m-%d")`: the engine's preferred match
and its unconsumed remainder. -/
def matchDash (cs : Str) : Option ((Nat × Nat × Nat) × Str) :=
  match cs with
  | a :: b :: c :: d :: '-' :: rest =>
    if isDigitC a && isDigitC b && isDigitC c && isDigitC d then
      (monthCands rest).findSome? (fun mc =>
        match mc.2 with
        | '-' :: r3 =>
          match (dayCands r3).head? with
          | some dc => some ((natOf [a, b, c, d], mc.1, dc.1), dc.2)
          | none => none
        | _ => none)
    else none
  | _ => none

/-- Regex phase of `strptime(s, "%Y%m%d")`. -/
def matchCompact (cs : Str) : Option ((Nat × Nat × Nat) × Str) :=
  match cs with
  | a :: b :: c :: d :: rest =>
    if isDigitC a && isDigitC b && isDigitC c && isDigitC d then
      (monthCands rest).findSome? (fun mc =>
        match (dayCands mc.2).head? with
        | some dc => some ((natOf [a, b, c, d], mc.1, dc.1), dc.2)
        | none => none)
    else none
  | _ => none

/-- Gregorian leap year (Python `datetime`). -/
def isLeap (y : Nat) : Bool := y % 4 = 0 && (y % 100 ≠ 0 || y % 400 = 0)

/-- Days in a month (Python `datetime`). -/
def daysInMonth (y m : Nat) : Nat :=
  if m = 2 then (if isLeap y then 29 else 28)
  else if m = 4 || m = 6 || m = 9 || m = 11 then 30
  else 31

/-- Validity of `datetime(y, m, d)` construction (`MINYEAR = 1`,
`MAXYEAR = 9999`). -/
def isValidDate (y m d : Nat) : Bool :=
  1 ≤ y && y ≤ 9999 && 1 ≤ m && m ≤ 12 && 1 ≤ d && d ≤ daysInMonth y m

/-- One `strptime` attempt: the regex's preferred match must consume the
whole string ("unconverted data remains" otherwise), and `datetime`
construction must succeed. -/
def strptimeFmt (matcher : Str → Option ((Nat × Nat × Nat) × Str)) (s : Str) :
    Option (Nat × Nat × Nat) :=
  match matcher s with
  | some (ymd, []) => if isValidDate ymd.1 ymd.2.1 ymd.2.2 then some ymd else none
  | _ => none

/-- app.py lines 167-173: try `'%Y-%m-%d'` (listed twice, same attempt)
then `'%Y%m%d'`; a `ValueError` moves to the next format. -/
def strptimeFormats (s : Str) : Option (Nat × Nat × Nat) :=
  match strptimeFmt matchDash s with
  | some ymd => some ymd
  | none => strptimeFmt matchCompact s

/-- `date_str.replace('/', '-')` (app.py line 164). -/
def replSlash (l : Str) : Str := l.map (fun c => if c = '/' then '-' else c)

/-- Decimal digits of a natural number. -/
def natDigits (n : Nat) : Str := Nat.toDigits 10 n

/-- Zero-pad to width `k` (strftime `%Y`, `%m`, `%d`). -/
def padZ (k : Nat) (s : Str) : Str := List.replicate (k - s.length) '0' ++ s

/-- `date_obj.strftime('%Y-%m-%d')`. -/
def formatYmd (y m d : Nat) : Str :=
  padZ 4 (natDigits y) ++ ['-'] ++ padZ 2 (natDigits m) ++ ['-'] ++ padZ 2 (natDigits d)

/-- The tail of `date_pattern1` and `date_pattern3` after their label:
greedy separator skip (the separator class is disjoint from digits, hence
the skip is exact), then the date shape. -/
def dateTail (cs : Str) : Option Str := dateShape (cs.dropWhile isSepC)

/-- app.py line 161: `date_pattern1.search(text) or date_pattern3.search(text)`. -/
def searchLabeledDate (cs : Str) : Option Str :=
  match searchLabel (str "发票日期") dateTail cs with
  | some g => some g
  | none => searchLabel (str "开票日期") dateTail cs

/-- `date_pattern2` `(\d{4})年(\d{1,2})月(\d{1,2})日` at the current
position, with the regex's backtracking on the `\d{1,2}` groups. -/
def bareDateAt (cs : Str) : Option (Nat × Nat × Nat) :=
  match cs with
  | a :: b :: c :: d :: '年' :: rest =>
    if isDigitC a && isDigitC b && isDigitC c && isDigitC d then
      (d12Cands rest).findSome? (fun t1 =>
        match t1.2 with
        | '月' :: r2 =>
          (d12Cands r2).findSome? (fun t2 =>
            match t2.2 with
            | '日' :: _ => some (natOf [a, b, c, d], natOf t1.1, natOf t2.1)
            | _ => none)
        | _ => none)
    else none
  | _ => none

/-- `date_pattern2.search(text)`. -/
def searchBareDate (cs : Str) : Option (Nat × Nat × Nat) := searchWith bareDateAt cs

/-- app.py lines 155-184: the issue-date extractor.  A labeled match is
normalized via the strptime format chain; only when no labeled match
exists anywhere is the first bare `YYYY年MM月DD日` occurrence tried, with
`datetime` construction validating it. -/
def extractDate (cs : Str) : Str :=
  match searchLabeledDate cs with
  | some g =>
    match strptimeFormats (replSlash g) with
    | some ymd => formatYmd ymd.1 ymd.2.1 ymd.2.2
    | none => []
  | none =>
    match searchBareDate cs with
    | some ymd =>
      if isValidDate ymd.1 ymd.2.1 ymd.2.2 then formatYmd ymd.1 ymd.2.1 ymd.2.2 else []
    | none => []

/-- Tail of a pattern of shape `label[:：\s]*([^\n]+)` after its label
(buyer-name and direct item patterns).  The separator star is greedy; the
capture needs one non-newline character.  If a non-separator character
follows the separator run it is not a newline (newline is a separator),
so the greedy capture starts there; otherwise the engine backtracks into
the separator run, and the first success places the capture at the last
non-newline separator, capturing exactly that one character (everything
after it is newlines). -/
def lineCapture (cs : Str) : Option Str :=
  let s := cs.takeWhile isSepC
  let r := cs.dropWhile isSepC
  match r with
  | _ :: _ => some (r.takeWhile (fun x => !(x = '\n')))
  | [] =>
    match s.reverse.dropWhile (fun x => x = '\n') with
    | c :: _ => some [c]
    | [] => none

/-- app.py lines 186-190: the buyer-name extractor, `.strip()` applied to
the captured group. -/
def extractBuyer (cs : Str) : Str :=
  match searchLabel (str "购买方") lineCapture cs with
  | some cap => pyStrip cap
  | none => []

/-- The four item-header labels of `item_patterns` (app.py lines 196-201),
in pattern order; also the `keywords` list of the line scan (line 222). -/
def itemLabels : List Str :=
  [str "货物或应税劳务、服务名称", str "货物或应税劳务名称", str "项目名称", str "商品名称"]

/-- app.py lines 203-209: direct item capture, one `search` per pattern,
appending the stripped group when non-empty and not already present. -/
def directItems (cs : Str) : List Str :=
  itemLabels.foldl (fun items lab =>
    match searchLabel lab lineCapture cs with
    | some cap =>
      let item := pyStrip cap
      if item ≠ [] ∧ item ∉ items then items ++ [item] else items
    | none => items) []

/-- Python `text.split('\n')`. -/
def splitNl : Str → List Str
  | [] => [[]]
  | '\n' :: r => [] :: splitNl r
  | c :: r =>
    match splitNl r with
    | l :: ls => (c :: l) :: ls
    | [] => [[c]]

/-- Python `needle in hay` substring test. -/
def isInfixB (needle : Str) : Str → Bool
  | [] => needle.isPrefixOf []
  | c :: rest => needle.isPrefixOf (c :: rest) || isInfixB needle rest

/-- `any(keyword in line for keyword in kws)`. -/
def containsAny (l : Str) (kws : List Str) : Bool := kws.any (fun k => isInfixB k l)

/-- `line.split(sep, 1)[1]`: everything after the first occurrence of
`sep` (the callers guarantee `sep` occurs in the line). -/
def afterFirst (sep : Char) (l : Str) : Str :=
  (l.dropWhile (fun c => !(c = sep))).drop 1

/-- The stop keywords of the line scan (app.py line 235). -/
def stopKws : List Str := [str "价税合计", str "合计", str "小写", str "大写", str "备注"]

/-- The exclude keywords of the line scan (app.py lines 240-241). -/
def exclKws : List Str :=
  [str "规格型号", str "单位", str "数量", str "单价", str "金额",
   str "税率", str "税额", str "序号", str "No"]

/-- The header-content filter keywords (app.py line 231). -/
def hdrFilterKws : List Str := [str "规格", str "型号", str "单位", str "数量"]

/-- `line.isdigit() or all(c in '0123456789.¥￥,，' for c in line)`
(app.py line 244), for a non-empty stripped line.  `isdigit` is modelled
over ASCII digits; the second disjunct subsumes it for ASCII input. -/
def isNumLine (l : Str) : Bool :=
  l.all isDigitC || l.all (fun c => isDigitC c || c = '.' || c = '¥' || c = '￥' || c = ',' || c = '，')

/-- app.py lines 212-245: the line-scan fallback.  State is the
accumulated items and the `capture_items` flag; a stop keyword breaks out
of the loop. -/
def scanLines : List Str → Bool → List Str → List Str
  | [], _, items => items
  | l :: rest, cap, items =>
    let line := pyStrip l
    if line = [] then scanLines rest cap items
    else if containsAny line itemLabels then
      let items' :=
        if (':' ∈ line) ∨ ('：' ∈ line) then
          let sep := if ':' ∈ line then ':' else '：'
          let item := pyStrip (afterFirst sep line)
          if item ≠ [] ∧ ¬ containsAny item hdrFilterKws then items ++ [item] else items
        else items
      scanLines rest true items'
    else if cap then
      if containsAny line stopKws then items
      else if containsAny line exclKws then scanLines rest cap items
      else if isNumLine line then scanLines rest cap items
      else scanLines rest cap (items ++ [line])
    else scanLines rest cap items

/-- app.py lines 193-245: direct capture, then the line scan only when no
direct item was found. -/
def collectItems (cs : Str) : List Str :=
  let items := directItems cs
  if items = [] then scanLines (splitNl cs) false [] else items

/-- app.py lines 250-253: de-duplicate keeping first-seen order. -/
def dedupFirst (l : List Str) : List Str :=
  l.foldl (fun u x => if x ∈ u then u else u ++ [x]) []

/-- The de-duplicated item sequence (`unique_items` in app.py). -/
def extractItemsList (cs : Str) : List Str := dedupFirst (collectItems cs)

/-- `'，'.join(unique_items)`. -/
def joinSep (sep : Str) : List Str → Str
  | [] => []
  | x :: xs => x ++ xs.foldl (fun acc y => acc ++ sep ++ y) []

/-- app.py lines 247-256: the stored `商品项目` field: the joined unique
items, or the sentinel when no item was collected. -/
def extractItemsField (cs : Str) : Str :=
  if collectItems cs = [] then str "未识别到商品项目"
  else joinSep (str "，") (extractItemsList cs)

/-- The labels of `total_patterns` (app.py lines 259-264) in order. Note
the first label uses ASCII parentheses, exactly as in the source regex
`价税合计\(小写\)`. -/
def totalLabels : List Str :=
  [str "价税合计(小写)", str "价税合计", str "合计", str "Total"]

/-- Tail of a total pattern after its label: `[:：\s]*[¥￥\s]*([\d.,]+)`.
Both separator stars are greedy; their classes are disjoint from the
capture class, and a shorter skip can only land on a separator character,
so the greedy double skip is exact. -/
def totalTail (cs : Str) : Option Str :=
  let v := ((cs.dropWhile isSepC).dropWhile isCurrC).takeWhile isAmtC
  if v = [] then none else some v

/-- `re.sub(r'[^\d.]', '', g)` on a `[\d.,]+` group: drop the commas. -/
def cleanAmount (g : Str) : Str := g.filter (fun c => isDigitC c || c = '.')

/-- Python `t.split('.')`. -/
def splitDot : Str → List Str
  | [] => [[]]
  | '.' :: r => [] :: splitDot r
  | c :: r =>
    match splitDot r with
    | l :: ls => (c :: l) :: ls
    | [] => [[c]]

/-- app.py lines 270-275: keep digits and dots, and when more than one
dot remains treat only the first as the decimal separator
(`parts[0] + '.' + ''.join(parts[1:])`). -/
def processTotalGroup (g : Str) : Str :=
  let t := cleanAmount g
  if t.count '.' > 1 then
    match splitDot t with
    | p :: ps => p ++ '.' :: ps.flatten
    | [] => t
  else t

/-- app.py lines 266-276: first total pattern with a match wins. -/
def labeledTotal (cs : Str) : Option Str :=
  (totalLabels.findSome? (fun lab => searchLabel lab totalTail cs)).map processTotalGroup

/-- One match of the fallback amount pattern
`[¥￥\s]*(\d{1,3}(?:,\d{3})*(?:\.\d{2})?)` at the current position:
the captured group and the remainder after the whole match.  All
quantifiers are effectively deterministic here (greedy, with following
atoms that cannot consume what the quantifier releases). -/
def commaGroups : Str → (Str × Str)
  | ',' :: a :: b :: c :: r =>
    if isDigitC a && isDigitC b && isDigitC c then
      let (g, rOut) := commaGroups r
      (',' :: a :: b :: c :: g, rOut)
    else ([], ',' :: a :: b :: c :: r)
  | r => ([], r)

/-- The optional fraction `(?:\.\d{2})?` of the fallback amount pattern. -/
def optFrac : Str → (Str × Str)
  | '.' :: a :: b :: r =>
    if isDigitC a && isDigitC b then (['.', a, b], r) else ([], '.' :: a :: b :: r)
  | r => ([], r)

/-- The fallback amount pattern at one position (group, remainder). -/
def amtMatchAt (cs : Str) : Option (Str × Str) :=
  let r := cs.dropWhile isCurrC
  match r with
  | c :: _ =>
    if isDigitC c then
      let d1 := (r.takeWhile isDigitC).take 3
      let (grs, r2) := commaGroups (r.drop d1.length)
      let (frac, r3) := optFrac r2
      some (d1 ++ grs ++ frac, r3)
    else none
  | [] => none

/-- `re.findall` for the fallback amount pattern: leftmost,
non-overlapping matches.  Fuel-indexed; every successful match consumes
at least one character, so fuel `cs.length` always suffices. -/
def findAmountsF : Nat → Str → List Str
  | 0, _ => []
  | _ + 1, [] => []
  | fuel + 1, c :: rest =>
    match amtMatchAt (c :: rest) with
    | some (g, r) => g :: findAmountsF fuel r
    | none => findAmountsF fuel rest

/-- `amount_pattern.findall(text)` (app.py lines 280-281). -/
def findAmounts (cs : Str) : List Str := findAmountsF cs.length cs

/-- `float(match.replace(',', ''))` for a fallback group, in exact
centi-units (the groups carry at most two decimals, so the Python float
value is exact for all realistic magnitudes and comparisons coincide). -/
def amountCenti (g : Str) : Nat :=
  let t := g.filter (fun c => !(c = ','))
  natOf (t.takeWhile isDigitC) * 100 + natOf ((t.dropWhile isDigitC).drop 1)

/-- `f"{max_amount:.2f}"` for an exact centi-unit value. -/
def fmtCenti (n : Nat) : Str :=
  natDigits (n / 100) ++ ['.'] ++ padZ 2 (natDigits (n % 100))

/-- app.py lines 258-295: the total-amount extractor.  The labeled
patterns run first; the fallback largest-amount scan runs when the stored
labeled value is empty (`if not result["价税合计"]`). -/
def extractTotal (cs : Str) : Str :=
  let base := match labeledTotal cs with
    | some t => t
    | none => []
  if base = [] then
    match findAmounts cs with
    | [] => []
    | ms => fmtCenti ((ms.map amountCenti).foldl max 0)
  else base

/-- The dictionary built by `extract_invoice_info` (app.py lines 141-147):
five always-present string-valued fields, never `None`. -/
structure InvoiceInfo where
  invoiceNo : Str
  issueDate : Str
  buyerName : Str
  lineItems : Str
  totalAmount : Str
deriving DecidableEq, Repr

/-- app.py lines 131-297: the field-extraction engine.  The five
extractors are independent and total. -/
def extract_invoice_info (cs : Str) : InvoiceInfo :=
  { invoiceNo := extractInvoiceNo cs
    issueDate := extractDate cs
    buyerName := extractBuyer cs
    lineItems := extractItemsField cs
    totalAmount := extractTotal cs }

/-- app.py lines 350-354: the mandatory fields found empty, in the
source's loop order. -/
def missingFields (info : InvoiceInfo) : List Str :=
  (if info.invoiceNo = [] then [str "发票号码"] else []) ++
  (if info.issueDate = [] then [str "发票日期"] else []) ++
  (if info.buyerName = [] then [str "购买方名称"] else []) ++
  (if info.totalAmount = [] then [str "价税合计"] else [])

/-- app.py lines 348-357: the record status for successfully acquired
text: `成功`, overwritten with the partial-missing message when any
mandatory field is empty. -/
def statusOf (info : InvoiceInfo) : Str :=
  match missingFields info with
  | [] => str "成功"
  | fs => str "部分信息缺失: " ++ joinSep (str ", ") fs

/-- One result row (`invoice_info` with file name and status). -/
structure InvoiceRecord where
  fileName : Str
  info : InvoiceInfo
  status : Str
deriving DecidableEq, Repr

/-- The outcome of text acquisition for one document, at the boundary
where `process_pdf` either holds a final text blob or an exception
propagates to its outer handler (app.py line 362 catches every
exception). -/
inductive DocInput where
  | okText (text : Str)
  | raiseExn (msg : Str)
deriving DecidableEq, Repr

/-- One uploaded document: caller-supplied name and acquisition outcome. -/
structure Document where
  name : Str
  input : DocInput
deriving DecidableEq, Repr

/-- The empty-field dictionary of the error row (app.py lines 365-373). -/
def errorInfo : InvoiceInfo := ⟨[], [], [], [], []⟩

/-- app.py lines 300-373: per-document processing.  Empty acquired text
raises `无法从PDF中提取文本` internally; every exception is caught and
yields an error row with status `处理出错: <message>`. -/
def process_pdf (d : Document) : InvoiceRecord :=
  match d.input with
  | .raiseExn e => ⟨d.name, errorInfo, str "处理出错: " ++ e⟩
  | .okText t =>
    if t = [] then ⟨d.name, errorInfo, str "处理出错: " ++ str "无法从PDF中提取文本"⟩
    else
      let info := extract_invoice_info t
      ⟨d.name, info, statusOf info⟩

/-- app.py lines 404-416: the batch loop appends `process_pdf(f)` for
each uploaded file in order. -/
def processBatch (docs : List Document) : List InvoiceRecord := docs.map process_pdf

/-- The native-text extraction outcome seen by `is_image_based_pdf`:
the per-page `extract_text()` results (`None` or a string), or an
exception raised anywhere inside the `with` block. -/
inductive PdfNative where
  | pages (ps : List (Option Str))
  | raiseExn (msg : Str)
deriving DecidableEq, Repr

/-- app.py lines 37-61: the text-source classifier.  Zero pages gives
`False`; otherwise the first page's text is empty/None or its stripped
length is below 10; any exception is caught and gives `False`. -/
def is_image_based_pdf : PdfNative → Bool
  | .raiseExn _ => false
  | .pages [] => false
  | .pages (p :: _) =>
    match p with
    | none => true
    | some t => t = [] || (pyStrip t).length < 10

/-- Spec-side character predicate for the buyer-name normalization claim:
CJK unified ideographs (base block and extension A), Latin letters,
digits. -/
def isCJKLatinDigit (c : Char) : Bool :=
  isAlnumC c || (0x3400 ≤ c.toNat && c.toNat ≤ 0x9FFF)

/-!
## Theorems

Helper lemmas first, then one theorem per claim (with counterexamples and
witnesses where applicable).
-/

theorem mem_append_singleton {α} {x y : α} {l : List α} (h : x ∈ l ++ [y]) :
    x ∈ l ∨ x = y := by
  rcases List.mem_append.mp h with h1 | h1
  · exact Or.inl h1
  · exact Or.inr (List.mem_singleton.mp h1)

theorem searchWith_eq_some {α} {f : Str → Option α} :
    ∀ {cs : Str} {v : α}, searchWith f cs = some v →
      ∃ pre suf, cs = pre ++ suf ∧ f suf = some v := by
  intro cs
  induction cs with
  | nil =>
    intro v h
    exact ⟨[], [], rfl, h⟩
  | cons c rest ih =>
    intro v h
    rw [searchWith] at h
    cases hf : f (c :: rest) with
    | some w =>
      rw [hf] at h
      exact ⟨[], c :: rest, rfl, hf.trans h⟩
    | none =>
      rw [hf] at h
      obtain ⟨p, s, hps, hfs⟩ := ih h
      exact ⟨c :: p, s, by rw [hps]; rfl, hfs⟩

theorem matchAfterLabel_eq_some {α} {label : Str} {g : Str → Option α} {cs : Str} {v : α}
    (h : matchAfterLabel label g cs = some v) :
    ∃ rest, cs = label ++ rest ∧ g rest = some v := by
  unfold matchAfterLabel at h
  by_cases hp : label.isPrefixOf cs
  · obtain ⟨t, ht⟩ := List.isPrefixOf_iff_prefix.mp hp
    refine ⟨t, ht.symm, ?_⟩
    rw [hp] at h
    simpa [← ht, List.drop_left] using h
  · simp [hp] at h

theorem searchLabel_eq_some {α} {label : Str} {g : Str → Option α} {cs : Str} {v : α}
    (h : searchLabel label g cs = some v) :
    ∃ pre rest, cs = pre ++ label ++ rest ∧ g rest = some v := by
  obtain ⟨pre, suf, hsplit, hm⟩ := searchWith_eq_some h
  obtain ⟨rest, hsuf, hg⟩ := matchAfterLabel_eq_some hm
  exact ⟨pre, rest, by rw [hsplit, hsuf, List.append_assoc], hg⟩

theorem invoiceTail_eq_some {cs v : Str} (h : invoiceTail cs = some v) :
    (∃ seps post, cs = seps ++ v ++ post ∧ ∀ c ∈ seps, isSepC c = true) ∧
    v ≠ [] ∧ (∀ c ∈ v, isAlnumC c = true) := by
  unfold invoiceTail at h
  by_cases hv : (cs.dropWhile isSepC).takeWhile isAlnumC = []
  · simp [hv] at h
  · rw [if_neg hv] at h
    have hv2 : (cs.dropWhile isSepC).takeWhile isAlnumC = v := Option.some.inj h
    refine ⟨⟨cs.takeWhile isSepC, (cs.dropWhile isSepC).dropWhile isAlnumC, ?_, ?_⟩, ?_, ?_⟩
    · rw [← hv2, List.append_assoc, List.takeWhile_append_dropWhile,
        List.takeWhile_append_dropWhile]
    · intro c hc
      exact List.mem_takeWhile_imp hc
    · rw [← hv2]; exact hv
    · intro c hc
      rw [← hv2] at hc
      exact List.mem_takeWhile_imp hc

/-- C1 (counterexample): the claim that an extracted invoice number is a
string of 8-20 digits (or exactly 18) is false: on `发票号码：AB12` the
extractor stores `AB12`, which contains non-digits and has length 4. -/
theorem c1_counterexample :
    (extract_invoice_info (str "发票号码：AB12")).invoiceNo = str "AB12" ∧
    ¬ ((str "AB12").all isDigitC = true) ∧
    (str "AB12").length = 4 := by decide

/-- C1 (amended): invoice_number is populated only when the literal
`发票号码` label, followed by optional separators, immediately precedes
the value in the text; the stored value is a non-empty run of
case-insensitive ASCII alphanumerics (`[A-Z0-9]+` with IGNORECASE), with
no digits-only or 8-20-length constraint.  An unlabeled run is never
extracted. -/
theorem c1_label_anchored (cs : Str)
    (h : (extract_invoice_info cs).invoiceNo ≠ []) :
    ∃ pre seps post,
      cs = pre ++ str "发票号码" ++ seps ++ (extract_invoice_info cs).invoiceNo ++ post ∧
      (∀ c ∈ seps, isSepC c = true) ∧
      (∀ c ∈ (extract_invoice_info cs).invoiceNo, isAlnumC c = true) := by
  have hproj : (extract_invoice_info cs).invoiceNo = extractInvoiceNo cs := rfl
  rw [hproj] at h ⊢
  unfold extractInvoiceNo at h ⊢
  cases hs : searchLabel (str "发票号码") invoiceTail cs with
  | none => rw [hs] at h; exact absurd rfl h
  | some v =>
    obtain ⟨pre, rest, hsplit, htail⟩ := searchLabel_eq_some hs
    obtain ⟨⟨seps, post, hrest, hseps⟩, _, halnum⟩ := invoiceTail_eq_some htail
    refine ⟨pre, seps, post, ?_, hseps, halnum⟩
    rw [hsplit, hrest]
    simp [List.append_assoc]

/-- C1 (witness): the amended theorem at a concrete labeled input. -/
theorem c1_witness :
    (extract_invoice_info (str "发票号码：12345678")).invoiceNo ≠ [] ∧
    ∃ pre seps post,
      str "发票号码：12345678" =
        pre ++ str "发票号码" ++ seps ++ (extract_invoice_info (str "发票号码：12345678")).invoiceNo ++ post ∧
      (∀ c ∈ seps, isSepC c = true) ∧
      (∀ c ∈ (extract_invoice_info (str "发票号码：12345678")).invoiceNo, isAlnumC c = true) :=
  ⟨by decide, c1_label_anchored (str "发票号码：12345678") (by decide)⟩

/-- C2: for every record built from successfully acquired text, the
status is `成功` exactly when the four mandatory fields are all
non-empty; otherwise it is the partial-missing status over
`missingFields`, and `missingFields` lists exactly the empty mandatory
fields, each once, no more and no fewer. -/
theorem c2_status_correct (info : InvoiceInfo) :
    (statusOf info = str "成功" ↔
      info.invoiceNo ≠ [] ∧ info.issueDate ≠ [] ∧ info.buyerName ≠ [] ∧
      info.totalAmount ≠ []) ∧
    (statusOf info = str "成功" ∨
      statusOf info = str "部分信息缺失: " ++ joinSep (str ", ") (missingFields info)) ∧
    (∀ f, f ∈ missingFields info ↔
      (f = str "发票号码" ∧ info.invoiceNo = []) ∨
      (f = str "发票日期" ∧ info.issueDate = []) ∨
      (f = str "购买方名称" ∧ info.buyerName = []) ∨
      (f = str "价税合计" ∧ info.totalAmount = [])) ∧
    (missingFields info).Nodup := by
  obtain ⟨no, dt, by_, it, tt⟩ := info
  by_cases h1 : no = [] <;> by_cases h2 : dt = [] <;> by_cases h3 : by_ = [] <;>
    by_cases h4 : tt = [] <;>
    simp_all [statusOf, missingFields, joinSep, str]

/-- C3: the batch loop returns exactly one record per input document, in
input order, and a document whose processing raises is represented by an
error record carrying its name and a `处理出错` status instead of being
dropped or aborting the batch. -/
theorem c3_batch_shape (docs : List Document) :
    (processBatch docs).length = docs.length ∧
    (∀ i : Nat, (processBatch docs)[i]? = (docs[i]?).map process_pdf) ∧
    (∀ d e, d.input = DocInput.raiseExn e →
      process_pdf d = ⟨d.name, errorInfo, str "处理出错: " ++ e⟩) := by
  refine ⟨List.length_map docs process_pdf, ?_, ?_⟩
  · intro i
    exact List.getElem?_map process_pdf docs i
  · intro d e h
    obtain ⟨n, inp⟩ := d
    cases inp with
    | okText t => exact absurd h (by simp)
    | raiseExn m =>
      obtain rfl : m = e := by simpa using h
      rfl

/-- C3 (witness): the per-document failure clause at a concrete failing
document. -/
theorem c3_witness :
    (Document.mk (str "a.pdf") (DocInput.raiseExn (str "boom"))).input =
      DocInput.raiseExn (str "boom") ∧
    process_pdf (Document.mk (str "a.pdf") (DocInput.raiseExn (str "boom"))) =
      ⟨str "a.pdf", errorInfo, str "处理出错: " ++ str "boom"⟩ :=
  ⟨rfl, (c3_batch_shape []).2.2 _ _ rfl⟩

/-- C4 (counterexample): on a text containing both the bare line-item
price `¥45.00` and the labeled total `价税合计（小写）¥819.00` (full-width
parentheses, as written in the spec) together with a larger bare amount,
the extractor returns `999.00`, not `819.00`: the labeled patterns do not
outrank the bare-amount scan for this text, because the first total
pattern requires ASCII parentheses and none of the labeled patterns
match. -/
theorem c4_counterexample :
    isInfixB (str "¥45.00") (str "¥45.00\n价税合计（小写）¥819.00\n¥999.00") = true ∧
    isInfixB (str "价税合计（小写）¥819.00")
      (str "¥45.00\n价税合计（小写）¥819.00\n¥999.00") = true ∧
    (extract_invoice_info (str "¥45.00\n价税合计（小写）¥819.00\n¥999.00")).totalAmount =
      str "999.00" ∧
    ¬ (str "999.00" = str "819.00") := by decide

/-- C4 (amended): on the two-amount text itself the extractor does return
`819.00`, but through the last-resort largest-amount scan — no labeled
pattern matches the full-width `（小写）` (witnessed by `labeledTotal`
returning `none`).  With the source's ASCII parentheses the label-scoped
pattern does outrank bare amounts, returning the labeled `819.00` even
when a larger bare amount is present. -/
theorem c4_total_ranking :
    (extract_invoice_info (str "¥45.00\n价税合计（小写）¥819.00")).totalAmount =
      str "819.00" ∧
    labeledTotal (str "¥45.00\n价税合计（小写）¥819.00") = none ∧
    (extract_invoice_info (str "¥45.00\n价税合计(小写)：¥819.00\n¥999.00")).totalAmount =
      str "819.00" ∧
    labeledTotal (str "¥45.00\n价税合计(小写)：¥819.00\n¥999.00") = some (str "819.00") := by
  decide

theorem mem_dropWhile_mem {p : Char → Bool} {l : Str} {c : Char}
    (h : c ∈ l.dropWhile p) : c ∈ l :=
  (List.dropWhile_sublist p).mem h

theorem head?_dropWhile_false {p : Char → Bool} {l : Str} {c : Char}
    (h : (l.dropWhile p).head? = some c) : p c = false := by
  have hx := List.head?_dropWhile_not p l
  rw [h] at hx
  simpa using hx

theorem getLast?_dropWhile {p : Char → Bool} :
    ∀ {l : Str}, l.dropWhile p ≠ [] → (l.dropWhile p).getLast? = l.getLast? := by
  intro l
  induction l with
  | nil => intro h; simp [List.dropWhile] at h
  | cons a t ih =>
    intro h
    by_cases hp : p a
    · rw [List.dropWhile_cons_of_pos hp] at h ⊢
      have ht : t ≠ [] := by
        intro he
        rw [he] at h
        simp [List.dropWhile] at h
      rw [ih h]
      cases t with
      | nil => exact absurd rfl ht
      | cons b t2 => exact List.getLast?_cons_cons.symm
    · rw [List.dropWhile_cons_of_neg hp]

theorem pyStrip_mem {l : Str} {c : Char} (h : c ∈ pyStrip l) : c ∈ l := by
  unfold pyStrip at h
  exact mem_dropWhile_mem (List.mem_reverse.mp (mem_dropWhile_mem (List.mem_reverse.mp h)))

theorem pyStrip_head_not_ws {l : Str} {c : Char}
    (h : (pyStrip l).head? = some c) : isPyWs c = false := by
  unfold pyStrip at h
  rw [List.head?_reverse] at h
  have hne : ((l.dropWhile isPyWs).reverse).dropWhile isPyWs ≠ [] := by
    intro he
    rw [he] at h
    simp at h
  rw [getLast?_dropWhile hne, List.getLast?_reverse] at h
  exact head?_dropWhile_false h

theorem pyStrip_getLast?_not_ws {l : Str} {c : Char}
    (h : (pyStrip l).getLast? = some c) : isPyWs c = false := by
  unfold pyStrip at h
  rw [List.getLast?_reverse] at h
  exact head?_dropWhile_false h

theorem lineCapture_no_newline {cs cap : Str} (h : lineCapture cs = some cap) :
    ∀ c ∈ cap, ¬ c = '\n' := by
  unfold lineCapture at h
  cases hr : cs.dropWhile isSepC with
  | cons a r =>
    rw [hr] at h
    have hcap : (a :: r).takeWhile (fun x => !(x = '\n')) = cap := Option.some.inj h
    intro c hc
    rw [← hcap] at hc
    have := List.mem_takeWhile_imp hc
    simpa using this
  | nil =>
    rw [hr] at h
    dsimp only at h
    cases hd : (cs.takeWhile isSepC).reverse.dropWhile (fun x => x = '\n') with
    | nil => rw [hd] at h; simp at h
    | cons c0 r0 =>
      rw [hd] at h
      have hcap : [c0] = cap := Option.some.inj h
      intro c hc
      rw [← hcap] at hc
      have hc0 : (fun x => decide (x = '\n')) c0 = false := by
        have hx := List.head?_dropWhile_not (fun x => x = '\n') (cs.takeWhile isSepC).reverse
        rw [hd] at hx
        simpa using hx
      obtain rfl := List.mem_singleton.mp hc
      simpa using hc0

/-- C5 (counterexample): the claim that the stored buyer name contains
only CJK ideographs, Latin letters and digits is false: on
`购买方：甲公司（备注）` the stored name retains the full-width
parentheses. -/
theorem c5_counterexample :
    (extract_invoice_info (str "购买方：甲公司（备注）")).buyerName = str "甲公司（备注）" ∧
    ¬ ((str "甲公司（备注）").all isCJKLatinDigit = true) := by decide

/-- C5 (amended): the stored buyer name is the captured span after the
`购买方` label with only leading and trailing whitespace stripped: it
never contains a newline and never starts or ends with whitespace, but
other characters (punctuation, parentheses, symbols) are retained. -/
theorem c5_buyer_normalization (cs : Str)
    (h : (extract_invoice_info cs).buyerName ≠ []) :
    (∀ c ∈ (extract_invoice_info cs).buyerName, ¬ c = '\n') ∧
    (∀ c, ((extract_invoice_info cs).buyerName).head? = some c → isPyWs c = false) ∧
    (∀ c, ((extract_invoice_info cs).buyerName).getLast? = some c → isPyWs c = false) := by
  have hproj : (extract_invoice_info cs).buyerName = extractBuyer cs := rfl
  rw [hproj] at h ⊢
  unfold extractBuyer at h ⊢
  cases hs : searchLabel (str "购买方") lineCapture cs with
  | none => rw [hs] at h; exact absurd rfl h
  | some cap =>
    obtain ⟨pre, rest, _, hcap⟩ := searchLabel_eq_some hs
    refine ⟨?_, ?_, ?_⟩
    · intro c hc
      exact lineCapture_no_newline hcap c (pyStrip_mem hc)
    · intro c hc
      exact pyStrip_head_not_ws hc
    · intro c hc
      exact pyStrip_getLast?_not_ws hc

/-- C5 (witness): the amended theorem at a concrete labeled input. -/
theorem c5_witness :
    (extract_invoice_info (str "购买方： 张三 x ")).buyerName ≠ [] ∧
    ((∀ c ∈ (extract_invoice_info (str "购买方： 张三 x ")).buyerName, ¬ c = '\n') ∧
     (∀ c, ((extract_invoice_info (str "购买方： 张三 x ")).buyerName).head? = some c →
       isPyWs c = false) ∧
     (∀ c, ((extract_invoice_info (str "购买方： 张三 x ")).buyerName).getLast? = some c →
       isPyWs c = false)) :=
  ⟨by decide, c5_buyer_normalization (str "购买方： 张三 x ") (by decide)⟩

theorem dedupFold_nodup :
    ∀ (l acc : List Str), acc.Nodup →
      (l.foldl (fun u x => if x ∈ u then u else u ++ [x]) acc).Nodup := by
  intro l
  induction l with
  | nil => intro acc h; simpa using h
  | cons a t ih =>
    intro acc h
    rw [List.foldl_cons]
    by_cases ha : a ∈ acc
    · rw [if_pos ha]
      exact ih acc h
    · rw [if_neg ha]
      exact ih _ (by simp [List.nodup_append, h, ha])

theorem dedupFold_mem :
    ∀ (l acc : List Str) (x : Str),
      x ∈ l.foldl (fun u y => if y ∈ u then u else u ++ [y]) acc ↔ x ∈ acc ∨ x ∈ l := by
  intro l
  induction l with
  | nil => intro acc x; simp
  | cons a t ih =>
    intro acc x
    rw [List.foldl_cons]
    by_cases ha : a ∈ acc
    · rw [if_pos ha, ih]
      simp only [List.mem_cons]
      constructor
      · rintro (h | h)
        · exact Or.inl h
        · exact Or.inr (Or.inr h)
      · rintro (h | h | h)
        · exact Or.inl h
        · exact Or.inl (h ▸ ha)
        · exact Or.inr h
    · rw [if_neg ha, ih]
      simp only [List.mem_append, List.mem_singleton, List.mem_cons]
      tauto

theorem dedupFold_sublist :
    ∀ (l acc : List Str),
      ∃ e, l.foldl (fun u x => if x ∈ u then u else u ++ [x]) acc = acc ++ e ∧
        List.Sublist e l := by
  intro l
  induction l with
  | nil => intro acc; exact ⟨[], by simp, List.nil_sublist []⟩
  | cons a t ih =>
    intro acc
    rw [List.foldl_cons]
    by_cases ha : a ∈ acc
    · rw [if_pos ha]
      obtain ⟨e, he, hs⟩ := ih acc
      exact ⟨e, he, hs.cons a⟩
    · rw [if_neg ha]
      obtain ⟨e, he, hs⟩ := ih (acc ++ [a])
      exact ⟨a :: e, by rw [he, List.append_assoc]; rfl, hs.cons₂ a⟩

/-- C6 (counterexample): the claim that the de-duplicated line-item
sequence never exceeds 5 entries is false: the code imposes no cap, and
this input yields 6 distinct items through the line-scan strategy. -/
theorem c6_counterexample :
    (extractItemsList (str "商品名称\n:\n::\n:::\n::::\n:::::\n::::::\n ")).length = 6 ∧
    ¬ ((extractItemsList (str "商品名称\n:\n::\n:::\n::::\n:::::\n::::::\n ")).length ≤ 5) := by
  decide

/-- C6 (amended): the line-item result is an ordered sequence of distinct
item descriptions — de-duplicated, first-seen order preserved (it is a
sublist of the collected items containing exactly their members) — but no
maximum item count is enforced. -/
theorem c6_items_distinct (cs : Str) :
    (extractItemsList cs).Nodup ∧
    List.Sublist (extractItemsList cs) (collectItems cs) ∧
    (∀ x : Str, x ∈ extractItemsList cs ↔ x ∈ collectItems cs) := by
  refine ⟨dedupFold_nodup _ [] List.nodup_nil, ?_, ?_⟩
  · obtain ⟨e, he, hs⟩ := dedupFold_sublist (collectItems cs) []
    unfold extractItemsList dedupFirst
    rw [he]
    simpa using hs
  · intro x
    unfold extractItemsList dedupFirst
    rw [dedupFold_mem]
    simp

theorem strptimeFmt_valid {matcher : Str → Option ((Nat × Nat × Nat) × Str)} {s : Str}
    {ymd : Nat × Nat × Nat} (h : strptimeFmt matcher s = some ymd) :
    isValidDate ymd.1 ymd.2.1 ymd.2.2 = true := by
  unfold strptimeFmt at h
  split at h
  · split at h
    · obtain rfl := Option.some.inj h
      assumption
    · exact absurd h (by simp)
  · exact absurd h (by simp)

theorem strptimeFormats_valid {s : Str} {ymd : Nat × Nat × Nat}
    (h : strptimeFormats s = some ymd) : isValidDate ymd.1 ymd.2.1 ymd.2.2 = true := by
  unfold strptimeFormats at h
  split at h
  · obtain rfl := Option.some.inj h
    exact strptimeFmt_valid (by assumption)
  · exact strptimeFmt_valid h

/-- C7: every non-empty issue date comes from a candidate that passed
calendar construction: it is the normalized rendering of a valid
Gregorian date.  Invalid candidates (such as `2024年02月30日` or month
13) are discarded, never stored. -/
theorem c7_date_validated (cs : Str) (h : (extract_invoice_info cs).issueDate ≠ []) :
    ∃ y m d, isValidDate y m d = true ∧
      (extract_invoice_info cs).issueDate = formatYmd y m d := by
  have hproj : (extract_invoice_info cs).issueDate = extractDate cs := rfl
  rw [hproj] at h ⊢
  cases h1 : searchLabeledDate cs with
  | some g =>
    cases h2 : strptimeFormats (replSlash g) with
    | some ymd =>
      refine ⟨ymd.1, ymd.2.1, ymd.2.2, strptimeFormats_valid h2, ?_⟩
      simp only [extractDate, h1, h2]
    | none =>
      exfalso
      apply h
      simp only [extractDate, h1, h2]
  | none =>
    cases h2 : searchBareDate cs with
    | some ymd =>
      by_cases hv : isValidDate ymd.1 ymd.2.1 ymd.2.2 = true
      · refine ⟨ymd.1, ymd.2.1, ymd.2.2, hv, ?_⟩
        simp only [extractDate, h1, h2, hv, if_true]
      · exfalso
        apply h
        simp only [extractDate, h1, h2]
        rw [if_neg hv]
    | none =>
      exfalso
      apply h
      simp only [extractDate, h1, h2]

/-- C7 (witness): a concrete labeled leap-day input whose stored date is
the validated normalization. -/
theorem c7_witness :
    (extract_invoice_info (str "开票日期：2024/2/29")).issueDate ≠ [] ∧
    ∃ y m d, isValidDate y m d = true ∧
      (extract_invoice_info (str "开票日期：2024/2/29")).issueDate = formatYmd y m d :=
  ⟨by decide, c7_date_validated (str "开票日期：2024/2/29") (by decide)⟩

/-- C8 (counterexample): a text whose labeled `发票日期` value is the
invalid `2024-02-30` but which also contains the valid bare occurrence
`2024年01月15日`: the claim says `issue_date` is populated with
`2024-01-15`, but the extractor stops after the failed labeled candidate
and leaves the field empty. -/
theorem c8_counterexample :
    (extract_invoice_info (str "发票日期：2024-02-30\n2024年01月15日")).issueDate = [] ∧
    searchBareDate (str "发票日期：2024-02-30\n2024年01月15日") = some (2024, 1, 15) ∧
    isValidDate 2024 1 15 = true ∧
    ¬ ((extract_invoice_info (str "发票日期：2024-02-30\n2024年01月15日")).issueDate =
        str "2024-01-15") := by decide

/-- C8 (amended): when a labeled date match exists, its failed validation
only advances through the remaining strptime formats; the search never
continues to other occurrences or to the bare-date fallback, so the field
stays empty. -/
theorem c8_labeled_stops (cs g : Str) (h1 : searchLabeledDate cs = some g)
    (h2 : strptimeFormats (replSlash g) = none) :
    (extract_invoice_info cs).issueDate = [] := by
  have hproj : (extract_invoice_info cs).issueDate = extractDate cs := rfl
  rw [hproj]
  simp only [extractDate, h1, h2]

/-- C8 (witness): the amended theorem at the concrete invalid-labeled
input. -/
theorem c8_witness :
    searchLabeledDate (str "发票日期：2024-02-30\n2024年01月15日") = some (str "2024-02-30") ∧
    strptimeFormats (replSlash (str "2024-02-30")) = none ∧
    (extract_invoice_info (str "发票日期：2024-02-30\n2024年01月15日")).issueDate = [] :=
  ⟨by decide, by decide,
    c8_labeled_stops (str "发票日期：2024-02-30\n2024年01月15日") (str "2024-02-30")
      (by decide) (by decide)⟩

/-- C9 (counterexample): when native-text extraction raises, the
classifier does not classify the document as image-based — it returns
`false` (text-based). -/
theorem c9_counterexample :
    ¬ (is_image_based_pdf (PdfNative.raiseExn (str "boom")) = true) := by decide

/-- C9 (amended): any extraction error is caught and the document is
classified as text-based (`false`) — fail-closed toward the native-text
path, not toward OCR; the classifier itself is total and never fatal to
the batch. -/
theorem c9_error_classified_text (e : Str) :
    is_image_based_pdf (PdfNative.raiseExn e) = false := rfl

theorem inv_extend {items : List Str} {y : Str} (h : ∀ x ∈ items, x ≠ [])
    (hy : y ≠ []) : ∀ x ∈ items ++ [y], x ≠ [] := by
  intro x hx
  rcases mem_append_singleton hx with h1 | rfl
  · exact h x h1
  · exact hy

theorem foldl_pred_invariant {α : Type} (P : Str → Prop) (f : List Str → α → List Str)
    (hf : ∀ acc a, ∀ x ∈ f acc a, x ∈ acc ∨ P x) :
    ∀ (l : List α) (acc : List Str), (∀ x ∈ acc, P x) → ∀ x ∈ l.foldl f acc, P x := by
  intro l
  induction l with
  | nil => intro acc h; simpa using h
  | cons a t ih =>
    intro acc h
    rw [List.foldl_cons]
    apply ih
    intro x hx
    rcases hf acc a x hx with h1 | h1
    · exact h x h1
    · exact h1

theorem directItems_ne_nil (cs : Str) : ∀ x ∈ directItems cs, x ≠ [] := by
  unfold directItems
  apply foldl_pred_invariant (fun x => x ≠ [])
  · intro acc lab x hx
    cases hs : searchLabel lab lineCapture cs with
    | none =>
      rw [hs] at hx
      exact Or.inl hx
    | some cap =>
      rw [hs] at hx
      dsimp only at hx
      by_cases hc : pyStrip cap ≠ [] ∧ pyStrip cap ∉ acc
      · rw [if_pos hc] at hx
        rcases mem_append_singleton hx with h1 | rfl
        · exact Or.inl h1
        · exact Or.inr hc.1
      · rw [if_neg hc] at hx
        exact Or.inl hx
  · simp

theorem scanLines_ne_nil :
    ∀ (ls : List Str) (cap : Bool) (items : List Str), (∀ x ∈ items, x ≠ []) →
      ∀ x ∈ scanLines ls cap items, x ≠ [] := by
  intro ls
  induction ls with
  | nil =>
    intro cap items h
    simpa [scanLines] using h
  | cons l rest ih =>
    intro cap items h x hx
    rw [scanLines] at hx
    dsimp only at hx
    by_cases hA : pyStrip l = []
    · rw [if_pos hA] at hx
      exact ih cap items h x hx
    · rw [if_neg hA] at hx
      by_cases hB : containsAny (pyStrip l) itemLabels = true
      · rw [if_pos hB] at hx
        refine ih true _ ?_ x hx
        by_cases hC : (':' ∈ pyStrip l) ∨ ('：' ∈ pyStrip l)
        · rw [if_pos hC]
          by_cases hD :
              pyStrip (afterFirst (if ':' ∈ pyStrip l then ':' else '：') (pyStrip l)) ≠ [] ∧
              ¬ containsAny
                  (pyStrip (afterFirst (if ':' ∈ pyStrip l then ':' else '：') (pyStrip l)))
                  hdrFilterKws = true
          · rw [if_pos hD]
            exact inv_extend h hD.1
          · rw [if_neg hD]
            exact h
        · rw [if_neg hC]
          exact h
      · rw [if_neg hB] at hx
        by_cases hE : cap = true
        · rw [if_pos hE] at hx
          by_cases hF : containsAny (pyStrip l) stopKws = true
          · rw [if_pos hF] at hx
            exact h x hx
          · rw [if_neg hF] at hx
            by_cases hG : containsAny (pyStrip l) exclKws = true
            · rw [if_pos hG] at hx
              exact ih cap items h x hx
            · rw [if_neg hG] at hx
              by_cases hH : isNumLine (pyStrip l) = true
              · rw [if_pos hH] at hx
                exact ih cap items h x hx
              · rw [if_neg hH] at hx
                exact ih cap (items ++ [pyStrip l]) (inv_extend h hA) x hx
        · rw [if_neg hE] at hx
          exact ih cap items h x hx

theorem collectItems_ne_nil (cs : Str) : ∀ x ∈ collectItems cs, x ≠ [] := by
  intro x hx
  unfold collectItems at hx
  dsimp only at hx
  by_cases hd : directItems cs = []
  · rw [if_pos hd] at hx
    exact scanLines_ne_nil (splitNl cs) false [] (by simp) x hx
  · rw [if_neg hd] at hx
    exact directItems_ne_nil cs x hx

/-- C10: the field-extraction engine is a total function producing all
five field values as strings (never a missing key or `None`), and the
line-items field is always non-empty: it is either the joined
de-duplicated items or the `未识别到商品项目` sentinel. -/
theorem c10_engine_total (cs : Str) :
    extract_invoice_info cs =
      ⟨extractInvoiceNo cs, extractDate cs, extractBuyer cs, extractItemsField cs,
        extractTotal cs⟩ ∧
    (extract_invoice_info cs).lineItems ≠ [] ∧
    ((extract_invoice_info cs).lineItems = str "未识别到商品项目" ∨
      (extract_invoice_info cs).lineItems = joinSep (str "，") (extractItemsList cs)) := by
  have hproj : (extract_invoice_info cs).lineItems = extractItemsField cs := rfl
  rw [hproj]
  refine ⟨rfl, ?_, ?_⟩
  · unfold extractItemsField
    by_cases hcol : collectItems cs = []
    · rw [if_pos hcol]
      decide
    · rw [if_neg hcol]
      obtain ⟨a, t, hat⟩ := List.exists_cons_of_ne_nil hcol
      have hmem : a ∈ extractItemsList cs := by
        unfold extractItemsList dedupFirst
        rw [dedupFold_mem]
        exact Or.inr (by rw [hat]; exact List.mem_cons_self a t)
      cases hd : extractItemsList cs with
      | nil => rw [hd] at hmem; simp at hmem
      | cons y ys =>
        have hy : y ∈ collectItems cs := by
          have : y ∈ extractItemsList cs := by rw [hd]; exact List.mem_cons_self y ys
          unfold extractItemsList dedupFirst at this
          rw [dedupFold_mem] at this
          simpa using this
        have hyne : y ≠ [] := collectItems_ne_nil cs y hy
        unfold joinSep
        cases y with
        | nil => exact absurd rfl hyne
        | cons c cy => simp
  · unfold extractItemsField
    by_cases hcol : collectItems cs = []
    · rw [if_pos hcol]
      exact Or.inl rfl
    · rw [if_neg hcol]
      exact Or.inr rfl
